import Mathlib

/-!
Verification of the todo HTTP endpoint in
`src/todo-list-with-Azure-backend-M365/api/todo/index.js`.

The file embeds the `TodoDatabase` class (an in-memory array with four
linear-scan operations) and the exported request handler (a switch on the
lowercased HTTP method) as pure Lean functions, and proves the spec's
claims about them.
-/

namespace Todo

/-- JavaScript primitive values, restricted to the forms that occur in this
program: strings (ids, descriptions, objectIds, channel ids), integer
numbers (the 0/1 completion flags), booleans (raw request-body flags),
`null` and `undefined` (absent fields).  JS objects and non-integer
numbers never flow into the store fields of this program. -/
inductive JSVal where
  | str : String → JSVal
  | num : Int → JSVal
  | bool : Bool → JSVal
  | null : JSVal
  | undef : JSVal
deriving DecidableEq, Repr

/-- The numeric value of a decimal digit character, `none` otherwise. -/
def decDigit (c : Char) : Option Nat :=
  if 48 ≤ c.toNat ∧ c.toNat ≤ 57 then some (c.toNat - 48) else none

/-- Read a character list as a decimal numeral, `none` on any non-digit. -/
def decimalValue : List Char → Nat → Option Nat
  | [], acc => some acc
  | c :: cs, acc =>
    match decDigit c with
    | some d => decimalValue cs (acc * 10 + d)
    | none => none

/-- JS `ToNumber` on a string, as it applies to the value forms of this
program: the empty string converts to 0, a nonempty decimal-digit string
converts to its value, and every other string converts to NaN (modelled
as `none`). -/
def strToNumber (s : String) : Option Int :=
  if s = "" then some 0
  else
    match decimalValue s.toList 0 with
    | some n => some (Int.ofNat n)
    | none => none

/-- JS strict equality `===` on the primitives above: equal only when the
types agree and the payloads agree. -/
def strictEq : JSVal → JSVal → Bool
  | .str s, .str t => s = t
  | .num m, .num n => m = n
  | .bool a, .bool b => a = b
  | .null, .null => true
  | .undef, .undef => true
  | _, _ => false

/-- JS `ToNumber` on a primitive: numbers are themselves, booleans are 1/0,
strings go through `strToNumber`, `null` is 0, `undefined` is NaN. -/
def toNumber : JSVal → Option Int
  | .num n => some n
  | .bool b => some (if b then 1 else 0)
  | .str s => strToNumber s
  | .null => some 0
  | .undef => none

/-- JS loose (abstract) equality `==` on the primitives above: same-type
comparisons are strict, `null` and `undefined` equal each other and
nothing else, and every remaining mixed comparison converts both sides
with `ToNumber` (NaN compares unequal to everything). -/
def looseEq (a b : JSVal) : Bool :=
  match a, b with
  | .str s, .str t => s = t
  | .null, .null => true
  | .undef, .undef => true
  | .null, .undef => true
  | .undef, .null => true
  | .null, _ => false
  | _, .null => false
  | .undef, _ => false
  | _, .undef => false
  | x, y =>
    match toNumber x, toNumber y with
    | some m, some n => m = n
    | _, _ => false

/-- JS truthiness of a primitive: nonempty strings and nonzero numbers are
truthy, `true` is truthy, everything else here is falsy. -/
def truthy : JSVal → Bool
  | .str s => !(s = "")
  | .num n => !(n = 0)
  | .bool b => b
  | .null => false
  | .undef => false

/-- The five column names of `TodoDatabase.columns`; every store call site
passes one of these constants. -/
inductive Column where
  | id | description | objectId | isCompleted | channelOrChatId
deriving DecidableEq, Repr

/-- A row of the store, as built by `TodoDatabase.insert`. -/
structure TodoItem where
  id : JSVal
  description : JSVal
  objectId : JSVal
  isCompleted : JSVal
  channelOrChatId : JSVal
deriving DecidableEq, Repr

/-- `item[column]`: read a field by column name. -/
def getColumn (it : TodoItem) : Column → JSVal
  | .id => it.id
  | .description => it.description
  | .objectId => it.objectId
  | .isCompleted => it.isCompleted
  | .channelOrChatId => it.channelOrChatId

/-- `item[column] = value`: overwrite one field by column name. -/
def putColumn (it : TodoItem) (c : Column) (v : JSVal) : TodoItem :=
  match c with
  | .id => { it with id := v }
  | .description => { it with description := v }
  | .objectId => { it with objectId := v }
  | .isCompleted => { it with isCompleted := v }
  | .channelOrChatId => { it with channelOrChatId := v }

/-- `TodoDatabase.listBy(column, value)`: scan `this.data` in order and
collect every item with `item[column] === value`. -/
def listBy (data : List TodoItem) (column : Column) (value : JSVal) : List TodoItem :=
  match data with
  | [] => []
  | it :: rest =>
    if strictEq (getColumn it column) value then it :: listBy rest column value
    else listBy rest column value

/-- `TodoDatabase.setColumn(id, column, value)`: for every item with
`item.id === id`, overwrite `item[column]` with `value`; all other items
are untouched. -/
def setColumn (data : List TodoItem) (i : JSVal) (column : Column) (value : JSVal) :
    List TodoItem :=
  data.map fun it => if strictEq it.id i then putColumn it column value else it

/-- `TodoDatabase.insert(description, objectId, isCompleted, channelOrChatId)`:
push a fresh row.  The id produced by the `uuid.v4()` call is passed in as
the `freshId` argument; the method returns `undefined`. -/
def insert (data : List TodoItem) (freshId description objectId isCompleted
    channelOrChatId : JSVal) : List TodoItem :=
  data ++ [⟨freshId, description, objectId, isCompleted, channelOrChatId⟩]

/-- `TodoDatabase.deleteBy(column, id)`: keep exactly the items with
`item[column] != id` (loose inequality). -/
def deleteBy (data : List TodoItem) (column : Column) (i : JSVal) : List TodoItem :=
  data.filter fun it => !(looseEq (getColumn it column) i)

/-- The parsed request body.  The handler reads `id`, `description`,
`isCompleted` and `channelOrChatId`; a client may also send an `objectId`
field, which the handler never reads. -/
structure Body where
  id : JSVal
  description : JSVal
  isCompleted : JSVal
  channelOrChatId : JSVal
  objectId : JSVal
deriving DecidableEq, Repr

/-- An HTTP request as the handler consumes it: the raw method string, the
`channelOrChatId` query parameter, and the body (`none` when the request
has no body, in which case `req.body` is `undefined`). -/
structure Req where
  method : String
  queryChannelOrChatId : JSVal
  body : Option Body
deriving DecidableEq, Repr

/-- The value assigned to `result` and returned as the response body:
an array from `listBy`, `undefined` from `setColumn` / `insert` /
`deleteBy`, the initial empty string when no case matches, or the
`{ error: message }` envelope of the catch block. -/
inductive ResVal where
  | items : List TodoItem → ResVal
  | undef : ResVal
  | emptyStr : ResVal
  | error : ResVal
deriving DecidableEq, Repr

/-- Lowercase one character, as JS `toLowerCase` does on the ASCII range
(HTTP method strings are ASCII). -/
def lowerChar (c : Char) : Char :=
  if 65 ≤ c.toNat ∧ c.toNat ≤ 90 then Char.ofNat (c.toNat + 32) else c

/-- `req.method.toLowerCase()` on an ASCII method string. -/
def toLowerCase (s : String) : String :=
  String.mk (s.toList.map lowerChar)

/-- The outcome of one invocation: the store contents afterwards plus the
HTTP response. -/
structure HResult where
  store : List TodoItem
  status : Nat
  body : ResVal
deriving DecidableEq, Repr

/-- The exported handler.  `objectId` is the caller identity resolved from
the SSO token, `freshId` is the value the `uuid.v4()` call produces if a
POST inserts, `db` is the global `database.data` array.  A JS `switch` on
strings is a sequence of strict string comparisons against the lowercased
method; a PUT or POST whose `req.body` is `undefined` throws a TypeError
on the property access, which the catch block turns into a 500. -/
def handle (objectId freshId : JSVal) (req : Req) (db : List TodoItem) : HResult :=
  let m := toLowerCase req.method
  if m = "get" then
    ⟨db, 200, .items (listBy db .channelOrChatId req.queryChannelOrChatId)⟩
  else if m = "put" then
    match req.body with
    | none => ⟨db, 500, .error⟩
    | some b =>
      if truthy b.description then
        ⟨setColumn db b.id .description b.description, 200, .undef⟩
      else
        ⟨setColumn db b.id .isCompleted (if truthy b.isCompleted then .num 1 else .num 0),
          200, .undef⟩
  else if m = "post" then
    match req.body with
    | none => ⟨db, 500, .error⟩
    | some b =>
      ⟨insert db freshId b.description objectId
        (if truthy b.isCompleted then .num 1 else .num 0) b.channelOrChatId, 200, .undef⟩
  else if m = "delete" then
    match req.body with
    | some b => ⟨deleteBy db .id b.id, 200, .undef⟩
    | none => ⟨deleteBy db .objectId objectId, 200, .undef⟩
  else
    ⟨db, 200, .emptyStr⟩

/-- One handler invocation, viewed as a transition on the store. -/
def step (objectId freshId : JSVal) (req : Req) (db : List TodoItem) : List TodoItem :=
  (handle objectId freshId req db).store

/-- A sequence of invocations: each event carries the resolved caller
identity, the uuid the invocation would generate, and the request. -/
def run (evs : List (JSVal × JSVal × Req)) (db : List TodoItem) : List TodoItem :=
  match evs with
  | [] => db
  | (oid, fresh, req) :: rest => run rest (step oid fresh req db)

/-- A sequence of bare `insert` calls; each event carries the generated
uuid and the four column arguments. -/
def runInserts (args : List (JSVal × JSVal × JSVal × JSVal × JSVal))
    (db : List TodoItem) : List TodoItem :=
  match args with
  | [] => db
  | (f, d, o, ic, ch) :: rest => runInserts rest (insert db f d o ic ch)

end Todo

namespace Todo

/-! ### Basic lemmas about the equality predicates and the store scans -/

/-- On the primitive values of this program, strict equality coincides with
structural equality. -/
theorem strictEq_iff (a b : JSVal) : strictEq a b = true ↔ a = b := by
  cases a <;> cases b <;> simp [strictEq]

/-- Between two strings, loose equality also coincides with structural
equality (no coercion happens). -/
theorem looseEq_str_str (s t : String) :
    looseEq (JSVal.str s) (JSVal.str t) = true ↔ JSVal.str s = JSVal.str t := by
  simp [looseEq]

/-- The `listBy` scan is the filter of the collection by strict equality on
the requested column. -/
theorem listBy_eq_filter (data : List TodoItem) (c : Column) (v : JSVal) :
    listBy data c v = data.filter fun it => strictEq (getColumn it c) v := by
  induction data with
  | nil => rfl
  | cons it rest ih =>
    by_cases h : strictEq (getColumn it c) v = true
    · simp [listBy, h, List.filter_cons, ih]
    · simp [listBy, h, List.filter_cons, ih]

end Todo

namespace Todo

/-! ### Claims about the store operations -/

/-- A sample row used to instantiate theorems with hypotheses. -/
def wItem : TodoItem :=
  ⟨JSVal.str "a1", JSVal.str "buy milk", JSVal.str "user1", JSVal.num 0, JSVal.str "c"⟩

/-- C8: `listBy(field, value)` returns exactly the items of the collection
whose field equals the value (strict equality), as a subsequence of the
collection, hence in insertion order; the empty-string value matches
exactly the items whose field is literally the empty string, with no
match-all behaviour. -/
theorem listBy_returns_exact_strict_matches (data : List TodoItem) (c : Column)
    (v : JSVal) :
    (∀ it, it ∈ listBy data c v ↔ it ∈ data ∧ getColumn it c = v)
    ∧ (listBy data c v).Sublist data
    ∧ (∀ it, it ∈ listBy data c (JSVal.str "") ↔
        it ∈ data ∧ getColumn it c = JSVal.str "") := by
  refine ⟨?_, ?_, ?_⟩
  · intro it
    rw [listBy_eq_filter]
    simp [List.mem_filter, strictEq_iff]
  · rw [listBy_eq_filter]
    exact List.filter_sublist data
  · intro it
    rw [listBy_eq_filter]
    simp [List.mem_filter, strictEq_iff]

/-- Instance of `listBy_returns_exact_strict_matches` at a one-row store. -/
theorem listBy_returns_exact_strict_matches_witness :
    wItem ∈ listBy [wItem] Column.channelOrChatId (JSVal.str "c") :=
  ((listBy_returns_exact_strict_matches [wItem] Column.channelOrChatId
      (JSVal.str "c")).1 wItem).mpr ⟨by decide, by decide⟩

/-- C4: `deleteBy(field, value)` keeps exactly the items whose field does
not (loosely) equal the value — every match is removed, not just the
first — the survivors keep their order, and the call is a no-op when no
item matches. -/
theorem deleteBy_removes_all_loose_matches (data : List TodoItem) (c : Column)
    (v : JSVal) :
    (∀ it, it ∈ deleteBy data c v ↔ it ∈ data ∧ looseEq (getColumn it c) v = false)
    ∧ (deleteBy data c v).Sublist data
    ∧ ((∀ it ∈ data, looseEq (getColumn it c) v = false) → deleteBy data c v = data) := by
  refine ⟨?_, ?_, ?_⟩
  · intro it
    simp [deleteBy, List.mem_filter]
  · exact List.filter_sublist data
  · intro h
    apply List.filter_eq_self.mpr
    intro it hit
    simp [h it hit]

/-- Instance of `deleteBy_removes_all_loose_matches`: deleting by an id
that matches nothing leaves the store unchanged. -/
theorem deleteBy_removes_all_loose_matches_witness :
    deleteBy [wItem] Column.id (JSVal.str "zzz") = [wItem] :=
  (deleteBy_removes_all_loose_matches [wItem] Column.id (JSVal.str "zzz")).2.2
    (by decide)

/-- A row whose `isCompleted` field is the number 1, exhibiting the
equality mismatch between `listBy` and `deleteBy`. -/
def divItem : TodoItem :=
  ⟨JSVal.str "i1", JSVal.str "d", JSVal.str "u", JSVal.num 1, JSVal.str "ch"⟩

/-- C10: `listBy` filters with strict equality while `deleteBy` filters
with loose inequality, and the two disagree: with `isCompleted` stored as
the number 1 and the value the string "1", `listBy` returns nothing, yet
`deleteBy` with the same arguments removes the item. -/
theorem listBy_strict_but_deleteBy_loose :
    (∀ data c v, listBy data c v = data.filter fun it => strictEq (getColumn it c) v)
    ∧ (∀ data c v, deleteBy data c v = data.filter fun it => !(looseEq (getColumn it c) v))
    ∧ strictEq (JSVal.num 1) (JSVal.str "1") = false
    ∧ looseEq (JSVal.num 1) (JSVal.str "1") = true
    ∧ listBy [divItem] Column.isCompleted (JSVal.str "1") = []
    ∧ deleteBy [divItem] Column.isCompleted (JSVal.str "1") = [] := by
  refine ⟨listBy_eq_filter, fun data c v => rfl, by decide, by decide, by decide, by decide⟩

end Todo

namespace Todo

/-! ### Lemmas about `setColumn` -/

/-- `setColumn` with an id that strictly matches no item is the identity. -/
theorem setColumn_no_match (db : List TodoItem) (i : JSVal) (c : Column) (v : JSVal)
    (h : ∀ it ∈ db, strictEq it.id i = false) : setColumn db i c v = db := by
  induction db with
  | nil => rfl
  | cons it rest ih =>
    have hit : strictEq it.id i = false := h it (List.mem_cons_self it rest)
    have hrest : setColumn rest i c v = rest :=
      ih fun x hx => h x (List.mem_cons_of_mem it hx)
    simp only [setColumn, List.map_cons, hit] at hrest ⊢
    simp [hrest]

/-- Writing one column leaves every other column of the item unchanged. -/
theorem getColumn_putColumn_ne (it : TodoItem) (c c' : Column) (v : JSVal)
    (h : ¬ c' = c) : getColumn (putColumn it c v) c' = getColumn it c' := by
  cases c <;> cases c' <;> simp_all [putColumn, getColumn]

/-- `setColumn` on one column leaves the projection of the store to any
other column unchanged. -/
theorem setColumn_map_getColumn_ne (db : List TodoItem) (i v : JSVal)
    (c c' : Column) (h : ¬ c' = c) :
    ((setColumn db i c v).map fun it => getColumn it c')
      = db.map fun it => getColumn it c' := by
  induction db with
  | nil => rfl
  | cons it rest ih =>
    have hhead : getColumn (if strictEq it.id i then putColumn it c v else it) c'
        = getColumn it c' := by
      by_cases hs : strictEq it.id i
      · simp [hs, getColumn_putColumn_ne it c c' v h]
      · simp [hs]
    simp only [setColumn, List.map_cons] at ih ⊢
    rw [hhead, ih]

/-! ### Claims about the request handler -/

/-- C1: on a POST, the row appended to the store carries the objectId of
the resolved caller identity, never an objectId taken from the request
body (the handler never reads `req.body.objectId`). -/
theorem post_inserts_caller_objectId (oid fresh : JSVal) (req : Req)
    (db : List TodoItem) (b : Body)
    (hm : toLowerCase req.method = "post") (hb : req.body = some b) :
    ∃ item : TodoItem,
      (handle oid fresh req db).store = db ++ [item]
      ∧ item.objectId = oid
      ∧ (¬ b.objectId = oid → ¬ item.objectId = b.objectId)
      ∧ (handle oid fresh req db).status = 200 := by
  refine ⟨⟨fresh, b.description, oid,
    if truthy b.isCompleted then JSVal.num 1 else JSVal.num 0, b.channelOrChatId⟩,
    ?_, rfl, ?_, ?_⟩
  · simp [handle, hm, hb, insert]
  · intro hne he
    exact hne he.symm
  · simp [handle, hm, hb]

/-- A request body that also tries to smuggle in an `objectId`. -/
def wBody : Body :=
  ⟨JSVal.str "a1", JSVal.str "new text", JSVal.bool true, JSVal.str "c",
    JSVal.str "attacker"⟩

/-- A POST request carrying `wBody`. -/
def wPostReq : Req := ⟨"POST", JSVal.undef, some wBody⟩

/-- Instance of `post_inserts_caller_objectId`: the attacker-supplied
objectId is ignored in favour of the caller identity. -/
theorem post_inserts_caller_objectId_witness :
    ∃ item : TodoItem,
      (handle (JSVal.str "me") (JSVal.str "f1") wPostReq []).store = [] ++ [item]
      ∧ item.objectId = JSVal.str "me"
      ∧ (¬ wBody.objectId = JSVal.str "me" → ¬ item.objectId = wBody.objectId)
      ∧ (handle (JSVal.str "me") (JSVal.str "f1") wPostReq []).status = 200 :=
  post_inserts_caller_objectId (JSVal.str "me") (JSVal.str "f1") wPostReq [] wBody
    (by decide) rfl

/-- C5: a PUT updates exactly one column.  When the body's description is
truthy, the store becomes `setColumn` on the description column and the
projection of the store to every other column — `isCompleted` included,
even when the body supplies it — is unchanged; otherwise the store
becomes `setColumn` on the `isCompleted` column with the body value
coerced to 1 when truthy and 0 otherwise, and every other column is
unchanged. -/
theorem put_updates_exactly_one_field (oid fresh : JSVal) (req : Req)
    (db : List TodoItem) (b : Body)
    (hm : toLowerCase req.method = "put") (hb : req.body = some b) :
    (truthy b.description = true →
      (handle oid fresh req db).store = setColumn db b.id Column.description b.description
      ∧ ∀ c, ¬ c = Column.description →
          ((handle oid fresh req db).store.map fun it => getColumn it c)
            = db.map fun it => getColumn it c)
    ∧ (truthy b.description = false →
      (handle oid fresh req db).store
        = setColumn db b.id Column.isCompleted
            (if truthy b.isCompleted then JSVal.num 1 else JSVal.num 0)
      ∧ ∀ c, ¬ c = Column.isCompleted →
          ((handle oid fresh req db).store.map fun it => getColumn it c)
            = db.map fun it => getColumn it c) := by
  constructor
  · intro hd
    have hstore : (handle oid fresh req db).store
        = setColumn db b.id Column.description b.description := by
      simp [handle, hm, hb, hd]
    exact ⟨hstore, fun c hc => by rw [hstore, setColumn_map_getColumn_ne db _ _ _ _ hc]⟩
  · intro hd
    have hstore : (handle oid fresh req db).store
        = setColumn db b.id Column.isCompleted
            (if truthy b.isCompleted then JSVal.num 1 else JSVal.num 0) := by
      simp [handle, hm, hb, hd]
    exact ⟨hstore, fun c hc => by rw [hstore, setColumn_map_getColumn_ne db _ _ _ _ hc]⟩

/-- A PUT request carrying `wBody` (truthy description and a completion
flag at the same time). -/
def wPutReq : Req := ⟨"PUT", JSVal.undef, some wBody⟩

/-- Instance of `put_updates_exactly_one_field`: a body supplying both
fields updates only the description column. -/
theorem put_updates_exactly_one_field_witness :
    (handle (JSVal.str "me") (JSVal.str "f1") wPutReq [wItem]).store
      = setColumn [wItem] wBody.id Column.description wBody.description :=
  ((put_updates_exactly_one_field (JSVal.str "me") (JSVal.str "f1") wPutReq [wItem]
    wBody (by decide) rfl).1 (by decide)).1

end Todo

namespace Todo

/-- C6: a DELETE with no body keeps exactly the items whose objectId does
not loosely equal the resolved caller identity and answers 200; since the
caller identity is a string and every stored objectId is a string (the
store only ever receives resolver-issued strings there), exactly the
caller-owned items are removed and every item owned by another identity
remains. -/
theorem delete_no_body_removes_only_callers_items (oid fresh : JSVal) (req : Req)
    (db : List TodoItem)
    (hm : toLowerCase req.method = "delete") (hb : req.body = none) :
    (handle oid fresh req db).store = db.filter (fun it => !(looseEq it.objectId oid))
    ∧ (handle oid fresh req db).status = 200
    ∧ ∀ t, oid = JSVal.str t → (∀ it ∈ db, ∃ s, it.objectId = JSVal.str s) →
        ∀ it, (it ∈ (handle oid fresh req db).store ↔ it ∈ db ∧ ¬ it.objectId = oid) := by
  have hstore : (handle oid fresh req db).store
      = db.filter fun it => !(looseEq it.objectId oid) := by
    simp [handle, hm, hb, deleteBy, getColumn]
  refine ⟨hstore, by simp [handle, hm, hb], ?_⟩
  intro t ht hall it
  rw [hstore]
  simp only [List.mem_filter, Bool.not_eq_eq_eq_not, Bool.not_true]
  constructor
  · rintro ⟨hit, hne⟩
    refine ⟨hit, fun he => ?_⟩
    rw [he, ht] at hne
    simp [looseEq] at hne
  · rintro ⟨hit, hne⟩
    refine ⟨hit, ?_⟩
    obtain ⟨s, hs⟩ := hall it hit
    rw [hs, ht]
    rw [hs, ht] at hne
    simp only [looseEq]
    simp only [decide_eq_false_iff_not]
    intro he
    exact hne (by rw [he])

/-- A DELETE request with no body. -/
def wDelReq : Req := ⟨"DELETE", JSVal.undef, none⟩

/-- Instance of `delete_no_body_removes_only_callers_items` at a one-row
store owned by the caller. -/
theorem delete_no_body_removes_only_callers_items_witness :
    wItem ∈ (handle (JSVal.str "user1") (JSVal.str "f1") wDelReq [wItem]).store
      ↔ (wItem ∈ [wItem] ∧ ¬ wItem.objectId = JSVal.str "user1") :=
  (delete_no_body_removes_only_callers_items (JSVal.str "user1") (JSVal.str "f1")
      wDelReq [wItem] (by decide) rfl).2.2 "user1" rfl
    (by
      intro it hit
      rw [List.mem_singleton] at hit
      subst hit
      exact ⟨"user1", rfl⟩)
    wItem

/-- C7: a PUT whose id strictly matches no item, or a DELETE-with-body
whose id loosely matches no item, leaves the store unchanged and still
answers 200. -/
theorem put_delete_nonexistent_id_noop (oid fresh : JSVal) (req : Req)
    (db : List TodoItem) (b : Body) (hb : req.body = some b)
    (h : (toLowerCase req.method = "put" ∧ ∀ it ∈ db, strictEq it.id b.id = false)
       ∨ (toLowerCase req.method = "delete" ∧ ∀ it ∈ db, looseEq it.id b.id = false)) :
    (handle oid fresh req db).store = db ∧ (handle oid fresh req db).status = 200 := by
  rcases h with ⟨hm, hno⟩ | ⟨hm, hno⟩
  · have h1 : setColumn db b.id Column.description b.description = db :=
      setColumn_no_match db b.id Column.description b.description hno
    have h2 : setColumn db b.id Column.isCompleted
        (if truthy b.isCompleted then JSVal.num 1 else JSVal.num 0) = db :=
      setColumn_no_match db b.id Column.isCompleted _ hno
    by_cases hd : truthy b.description
    · simp [handle, hm, hb, hd, h1]
    · simp [handle, hm, hb, hd, h2]
  · have h1 : deleteBy db Column.id b.id = db := by
      apply List.filter_eq_self.mpr
      intro it hit
      simp [getColumn, hno it hit]
    simp [handle, hm, hb, h1]

/-- A body whose id matches nothing in the sample store. -/
def wMissBody : Body :=
  ⟨JSVal.str "zzz", JSVal.str "text", JSVal.bool false, JSVal.str "c", JSVal.undef⟩

/-- A mixed-case PUT request carrying `wMissBody`. -/
def wMissPutReq : Req := ⟨"Put", JSVal.undef, some wMissBody⟩

/-- Instance of `put_delete_nonexistent_id_noop`: a PUT against an absent
id changes nothing and still reports success. -/
theorem put_delete_nonexistent_id_noop_witness :
    (handle (JSVal.str "me") (JSVal.str "f1") wMissPutReq [wItem]).store = [wItem]
    ∧ (handle (JSVal.str "me") (JSVal.str "f1") wMissPutReq [wItem]).status = 200 :=
  put_delete_nonexistent_id_noop (JSVal.str "me") (JSVal.str "f1") wMissPutReq
    [wItem] wMissBody rfl (Or.inl ⟨by decide, by decide⟩)

/-- C9: a request whose lowercased method is none of get, put, post,
delete falls through the switch: the store is untouched and the response
is status 200 with the initial empty-string result. -/
theorem unknown_method_noop_200_empty (oid fresh : JSVal) (req : Req)
    (db : List TodoItem)
    (hm : ¬ toLowerCase req.method ∈ (["get", "put", "post", "delete"] : List String)) :
    handle oid fresh req db = ⟨db, 200, ResVal.emptyStr⟩ := by
  have hg : ¬ toLowerCase req.method = "get" := fun e => hm (by simp [e])
  have hp : ¬ toLowerCase req.method = "put" := fun e => hm (by simp [e])
  have ho : ¬ toLowerCase req.method = "post" := fun e => hm (by simp [e])
  have hd : ¬ toLowerCase req.method = "delete" := fun e => hm (by simp [e])
  simp [handle, hg, hp, ho, hd]

/-- Instance of `unknown_method_noop_200_empty` at the PATCH method. -/
theorem unknown_method_noop_200_empty_witness :
    handle (JSVal.str "me") (JSVal.str "f1") ⟨"PATCH", JSVal.undef, none⟩ [wItem]
      = ⟨[wItem], 200, ResVal.emptyStr⟩ :=
  unknown_method_noop_200_empty (JSVal.str "me") (JSVal.str "f1")
    ⟨"PATCH", JSVal.undef, none⟩ [wItem] (by decide)

end Todo

namespace Todo

/-! ### Claims about sequences of operations -/

/-- The ids currently held by the store, in order. -/
def storeIds (data : List TodoItem) : List JSVal :=
  data.map fun it => it.id

/-- A sequence of inserts appends exactly the generated ids to the stored
ids. -/
theorem runInserts_storeIds (args : List (JSVal × JSVal × JSVal × JSVal × JSVal))
    (db : List TodoItem) :
    storeIds (runInserts args db) = storeIds db ++ args.map fun a => a.1 := by
  induction args generalizing db with
  | nil => simp [runInserts]
  | cons a rest ih =>
    obtain ⟨f, d, o, ic, ch⟩ := a
    show storeIds (runInserts rest (insert db f d o ic ch)) = _
    rw [ih, insert]
    simp [storeIds]

/-- C3: across any sequence of inserts in which the `uuid.v4()` calls
deliver ids distinct from one another and from every id already stored —
the uniqueness contract of the uuid generator — every id in the resulting
store is distinct from every other id, and the stored ids are exactly the
old ids followed by the generated ones. -/
theorem insert_ids_all_distinct (args : List (JSVal × JSVal × JSVal × JSVal × JSVal))
    (db : List TodoItem)
    (h : (storeIds db ++ args.map fun a => a.1).Nodup) :
    (storeIds (runInserts args db)).Nodup
    ∧ storeIds (runInserts args db) = storeIds db ++ args.map fun a => a.1 := by
  refine ⟨?_, runInserts_storeIds args db⟩
  rw [runInserts_storeIds args db]
  exact h

/-- Two insert events with distinct generated uuids. -/
def wInsArgs : List (JSVal × JSVal × JSVal × JSVal × JSVal) :=
  [(JSVal.str "f1", JSVal.str "d1", JSVal.str "u1", JSVal.num 0, JSVal.str "c"),
   (JSVal.str "f2", JSVal.str "d2", JSVal.str "u1", JSVal.num 1, JSVal.str "c")]

/-- Instance of `insert_ids_all_distinct` on two inserts into the empty
store. -/
theorem insert_ids_all_distinct_witness :
    (storeIds (runInserts wInsArgs [])).Nodup :=
  (insert_ids_all_distinct wInsArgs [] (by decide)).1

/-- The creation-time data of an item: its id together with its owner. -/
def idAndOwner (it : TodoItem) : JSVal × JSVal := (it.id, it.objectId)

/-- The id/owner pairs currently held by the store, in order. -/
def owners (data : List TodoItem) : List (JSVal × JSVal) :=
  data.map idAndOwner

/-- `setColumn` on a column other than `id` and `objectId` leaves the
id/owner pairs unchanged. -/
theorem owners_setColumn (db : List TodoItem) (i v : JSVal) (c : Column)
    (h1 : ¬ c = Column.id) (h2 : ¬ c = Column.objectId) :
    owners (setColumn db i c v) = owners db := by
  induction db with
  | nil => rfl
  | cons it rest ih =>
    have hhead : idAndOwner (if strictEq it.id i then putColumn it c v else it)
        = idAndOwner it := by
      by_cases hs : strictEq it.id i
      · cases c <;> simp_all [idAndOwner, putColumn]
      · simp [hs]
    simp only [owners, setColumn, List.map_cons] at ih ⊢
    rw [hhead, ih]

/-- One handler invocation either keeps a subsequence of the existing
id/owner pairs (possibly rewriting other columns) or, in the POST case,
appends exactly the pair of the generated id and the caller identity. -/
theorem step_owners (oid fresh : JSVal) (req : Req) (db : List TodoItem) :
    (owners (step oid fresh req db)).Sublist (owners db)
    ∨ owners (step oid fresh req db) = owners db ++ [(fresh, oid)] := by
  by_cases hg : toLowerCase req.method = "get"
  · left
    simp [step, handle, hg]
  by_cases hp : toLowerCase req.method = "put"
  · left
    cases hb : req.body with
    | none => simp [step, handle, hp, hb]
    | some b =>
      by_cases hd : truthy b.description
      · have : step oid fresh req db = setColumn db b.id Column.description b.description := by
          simp [step, handle, hp, hb, hd]
        rw [this, owners_setColumn db _ _ _ (by simp) (by simp)]
      · have : step oid fresh req db = setColumn db b.id Column.isCompleted
            (if truthy b.isCompleted then JSVal.num 1 else JSVal.num 0) := by
          simp [step, handle, hp, hb, hd]
        rw [this, owners_setColumn db _ _ _ (by simp) (by simp)]
  by_cases ho : toLowerCase req.method = "post"
  · cases hb : req.body with
    | none =>
      left
      simp [step, handle, hg, hp, ho, hb]
    | some b =>
      right
      have : step oid fresh req db = insert db fresh b.description oid
          (if truthy b.isCompleted then JSVal.num 1 else JSVal.num 0) b.channelOrChatId := by
        simp [step, handle, hg, hp, ho, hb]
      rw [this]
      simp [owners, insert, idAndOwner]
  by_cases hd : toLowerCase req.method = "delete"
  · left
    cases hb : req.body with
    | none =>
      have : step oid fresh req db = deleteBy db Column.objectId oid := by
        simp [step, handle, hg, hp, ho, hd, hb]
      rw [this]
      exact (List.filter_sublist db).map idAndOwner
    | some b =>
      have : step oid fresh req db = deleteBy db Column.id b.id := by
        simp [step, handle, hg, hp, ho, hd, hb]
      rw [this]
      exact (List.filter_sublist db).map idAndOwner
  · left
    simp [step, handle, hg, hp, ho, hd]

/-- C2: across any sequence of handler invocations, every item found in
the store carries an id/owner pair that either was already present
initially or is exactly the pair written by the POST that created it: no
invocation ever rewrites an item's objectId after creation. -/
theorem objectId_set_only_at_creation (evs : List (JSVal × JSVal × Req))
    (db : List TodoItem) (it : TodoItem) (h : it ∈ run evs db) :
    (it.id, it.objectId) ∈ owners db
    ∨ ∃ e ∈ evs, (it.id, it.objectId) = (e.2.1, e.1) := by
  induction evs generalizing db with
  | nil =>
    left
    exact List.mem_map.mpr ⟨it, h, rfl⟩
  | cons e rest ih =>
    obtain ⟨oid, fresh, req⟩ := e
    have h' := ih (step oid fresh req db) h
    rcases h' with hmem | ⟨e', he', hp⟩
    · rcases step_owners oid fresh req db with hsub | happ
      · left
        exact hsub.mem hmem
      · rw [happ] at hmem
        rcases List.mem_append.mp hmem with hin | hnew
        · left
          exact hin
        · right
          refine ⟨(oid, fresh, req), List.mem_cons_self _ _, ?_⟩
          simpa using hnew
    · right
      exact ⟨e', List.mem_cons_of_mem _ he', hp⟩

/-- One POST event creating a single item in the empty store. -/
def wEvs : List (JSVal × JSVal × Req) :=
  [(JSVal.str "me", JSVal.str "f1", wPostReq)]

/-- The row that POST event creates. -/
def wCreated : TodoItem :=
  ⟨JSVal.str "f1", JSVal.str "new text", JSVal.str "me", JSVal.num 1, JSVal.str "c"⟩

/-- Instance of `objectId_set_only_at_creation`: the single item of the
resulting store carries the pair written at its creation. -/
theorem objectId_set_only_at_creation_witness :
    (wCreated.id, wCreated.objectId) ∈ owners []
    ∨ ∃ e ∈ wEvs, (wCreated.id, wCreated.objectId) = (e.2.1, e.1) :=
  objectId_set_only_at_creation wEvs [] wCreated (by decide)

end Todo
